import Mathlib

/-!
Verification of the invite-tracking core of the `invitebot` Discord bot
(`src/index.js`), embedded shallowly in Lean.

Host-language strings are embedded as `List Char`; the JavaScript `Map`s
(`inviteCounts`, `userInviter`, `invitesCache`) are embedded as
insertion-ordered association lists, with `mapGet`/`mapSet` reproducing
`Map.prototype.get`/`Map.prototype.set` (a `set` on an existing key updates
it in place, a `set` on a fresh key appends at the end, as JavaScript `Map`
iteration order prescribes).
-/

set_option autoImplicit false

namespace InviteBot

/-- JavaScript strings, embedded as lists of characters. -/
abbrev Str : Type := List Char

/-- The composite ledger key, the template literal `` `${guildId}-${userId}` ``
(lines 93, 210, 302, 365 of `src/index.js`). -/
def mkKey (guildId userId : Str) : Str := guildId ++ '-' :: userId

/-- `Map.prototype.get`: first entry with the given key, if any. -/
def mapGet {α : Type} : List (Str × α) → Str → Option α
  | [], _ => none
  | (k, v) :: rest, key => if k = key then some v else mapGet rest key

/-- `Map.prototype.set`: update an existing key in place, else append. -/
def mapSet {α : Type} : List (Str × α) → Str → α → List (Str × α)
  | [], key, v => [(key, v)]
  | (k, w) :: rest, key, v =>
    if k = key then (key, v) :: rest else (k, w) :: mapSet rest key v

/-- A guild's invite snapshot: invite code ↦ last observed use count
(the per-guild value stored in `invitesCache`). -/
abbrev Snapshot : Type := List (Str × Nat)

/-- One entry of the fresh invite list returned by `guild.invites.fetch()`:
its code, its cumulative use count, and its creator when resolvable
(`inv.inviter` is `null` for e.g. vanity invites). -/
structure Invite where
  code : Str
  uses : Nat
  inviter : Option Str
deriving DecidableEq, Repr

/-- `new Map(newInvites.map(inv => [inv.code, inv.uses]))` (line 195):
build the updated snapshot by inserting each invite's (code, uses) pair in
list order. -/
def snapshotOf (invites : List Invite) : Snapshot :=
  invites.foldl (fun m inv => mapSet m inv.code inv.uses) []

/-- The scan of lines 200–206: iterate the updated snapshot's entries in
order and return the first code whose use count exceeds its cached count
(`cachedInvites.get(code) || 0`, a missing entry counting as 0). -/
def findUsedCode (cached : Snapshot) : Snapshot → Option Str
  | [] => none
  | (code, uses) :: rest =>
    if (mapGet cached code).getD 0 < uses then some code
    else findUsedCode cached rest

/-- The attribution step of the `guildMemberAdd` handler (lines 199–218):
find the first code whose count increased, resolve it against the fresh
invite list (`newInvites.find(inv => inv.code === code)`, line 203), and
return the (code, inviter id) pair when the invite has a resolvable
inviter (`usedInvite && usedInvite.inviter`, line 208). -/
def attributeInvite (cached : Snapshot) (newInvites : List Invite) :
    Option (Str × Str) :=
  match findUsedCode cached (snapshotOf newInvites) with
  | none => none
  | some code =>
    match newInvites.find? (fun inv => inv.code == code) with
    | none => none
    | some inv =>
      match inv.inviter with
      | none => none
      | some inviterId => some (code, inviterId)

/-- The process-wide mutable stores of `src/index.js` lines 36–38:
`inviteCounts` (composite key ↦ count), `userInviter` (member id ↦ inviter
id, global, not guild-scoped), and `invitesCache` (guild id ↦ snapshot). -/
structure BotState where
  inviteCounts : List (Str × Nat)
  userInviter : List (Str × Str)
  invitesCache : List (Str × Snapshot)
deriving DecidableEq, Repr

/-- `invitesCache.get(guildId) || new Map()` (line 191). -/
def cachedOf (st : BotState) (guildId : Str) : Snapshot :=
  (mapGet st.invitesCache guildId).getD []

/-- The crediting block of lines 209–213: bump the
`` `${guildId}-${inviterId}` `` counter by one
(`inviteCounts.get(guildKey) || 0`, then `set(guildKey, count + 1)`) and
record `userInviter.set(member.id, inviterId)`. -/
def credit (st : BotState) (guildId inviterId memberId : Str) : BotState :=
  let guildKey := mkKey guildId inviterId
  let count := (mapGet st.inviteCounts guildKey).getD 0
  { st with
    inviteCounts := mapSet st.inviteCounts guildKey (count + 1),
    userInviter := mapSet st.userInviter memberId inviterId }

/-- `credit` iterated `n` times for the same guild, inviter and member. -/
def creditN (st : BotState) (guildId inviterId memberId : Str) : Nat → BotState
  | 0 => st
  | n + 1 => credit (creditN st guildId inviterId memberId n) guildId inviterId memberId

/-- The `guildMemberAdd` handler (lines 188–222): read the cached snapshot,
replace the cache with the fresh snapshot (line 196), run attribution, and
credit the resolved inviter when there is one. -/
def guildMemberAdd (st : BotState) (guildId memberId : Str)
    (newInvites : List Invite) : BotState :=
  let cached := cachedOf st guildId
  let st1 := { st with
    invitesCache := mapSet st.invitesCache guildId (snapshotOf newInvites) }
  match attributeInvite cached newInvites with
  | some (_, inviterId) => credit st1 guildId inviterId memberId
  | none => st1

/-- The `guildMemberRemove` handler (lines 225–234): it only reads
`userInviter.get(member.id)` for logging and mutates nothing. -/
def guildMemberRemove (st : BotState) (memberId : Str) :
    BotState × Option Str :=
  (st, mapGet st.userInviter memberId)

/-- The summation loop of `handleInviteCommand` (lines 301–305) and
`handleCheckInvitesCommand` (lines 364–368): add up every entry whose key
starts with `` `${guildId}-${userId}` ``. -/
def totalFor (counts : List (Str × Nat)) (guildId userId : Str) : Nat :=
  match counts with
  | [] => 0
  | (key, count) :: rest =>
    (if (mkKey guildId userId).isPrefixOf key then count else 0)
      + totalFor rest guildId userId

/-- The user-id validation of line 339, the regex `/^\d{17,19}$/`:
a string of exactly 17 to 19 decimal digits. -/
def validUserId (s : Str) : Bool :=
  decide (17 ≤ s.length) && decide (s.length ≤ 19) && s.all Char.isDigit

/-- The reply of `handleCheckInvitesCommand`: either the invalid-id
rejection embed or the credited-total embed. -/
inductive CheckReply
  | invalidId
  | total (n : Nat)
deriving DecidableEq, Repr

/-- `handleCheckInvitesCommand` (lines 333–402): reject a malformed id
before touching the ledger, else sum the ledger and fetch the target user.
The returned flag records whether the platform fetch
(`client.users.fetch`, line 373) was reached. -/
def handleCheckInvitesCommand (counts : List (Str × Nat))
    (guildId targetUserId : Str) : CheckReply × Bool :=
  if !validUserId targetUserId then (CheckReply.invalidId, false)
  else (CheckReply.total (totalFor counts guildId targetUserId), true)

/-- The key-removal loop of `handleResetCommand` (lines 417–424): drop
every ledger entry whose key starts with `` `${guildId}-` ``. -/
def resetCounts (counts : List (Str × Nat)) (guildId : Str) :
    List (Str × Nat) :=
  counts.filter (fun kv => !((guildId ++ ['-']).isPrefixOf kv.1))

/-- The inviter-map cleanup of `handleResetCommand` (lines 427–435): drop
the entry of every member the invoking guild can still fetch; `present`
embeds `interaction.guild.members.fetch(memberId)` succeeding. -/
def resetInviterMap (m : List (Str × Str)) (present : Str → Bool) :
    List (Str × Str) :=
  m.filter (fun kv => !(present kv.1))

/-- The reply of `handleResetCommand`. -/
inductive ResetReply
  | permissionDenied
  | resetDone
deriving DecidableEq, Repr

/-- `handleResetCommand` (lines 404–454): refuse without the administrator
permission flag (lines 406–412), else clear the invoking guild's ledger
entries and the inviter map entries of its present members. -/
def handleResetCommand (isAdmin : Bool) (guildId : Str)
    (present : Str → Bool) (st : BotState) : BotState × ResetReply :=
  if !isAdmin then (st, ResetReply.permissionDenied)
  else
    ({ st with
        inviteCounts := resetCounts st.inviteCounts guildId,
        userInviter := resetInviterMap st.userInviter present },
      ResetReply.resetDone)

/-- Outcome of process startup. -/
inductive StartupResult
  | exited (code : Nat)
  | connected (st : BotState)
deriving DecidableEq, Repr

/-- `!process.env.DISCORD_TOKEN` (line 19): true when the variable is
absent or holds the empty string (both are falsy). -/
def tokenFalsy : Option Str → Bool
  | none => true
  | some t => t.isEmpty

/-- The startup sequence of lines 16–38: if the token is falsy the process
exits with code 1 before the client, commands or stores exist; otherwise
the client is created with the three stores empty. -/
def startup (token : Option Str) : StartupResult :=
  if tokenFalsy token then StartupResult.exited 1
  else StartupResult.connected ⟨[], [], []⟩

/-! ### Association-list and prefix lemmas -/

theorem mapGet_mapSet_self {α : Type} (m : List (Str × α)) (k : Str) (v : α) :
    mapGet (mapSet m k v) k = some v := by
  induction m with
  | nil => simp [mapSet, mapGet]
  | cons hd tl ih =>
    obtain ⟨k', w⟩ := hd
    by_cases h : k' = k
    · simp [mapSet, h, mapGet]
    · simp [mapSet, h, mapGet, ih]

theorem isPrefixOf_append_self (l q : Str) : l.isPrefixOf (l ++ q) = true := by
  induction l with
  | nil => simp [List.isPrefixOf]
  | cons a t ih => simp [List.isPrefixOf, ih]

theorem isPrefixOf_refl (l : Str) : l.isPrefixOf l = true := by
  have h := isPrefixOf_append_self l []
  rwa [List.append_nil] at h

theorem isPrefixOf_of_append (p q k : Str)
    (h : (p ++ q).isPrefixOf k = true) : p.isPrefixOf k = true := by
  induction p generalizing k with
  | nil => simp [List.isPrefixOf]
  | cons a t ih =>
    cases k with
    | nil => simp [List.isPrefixOf] at h
    | cons b k' =>
      simp only [List.cons_append, List.isPrefixOf, Bool.and_eq_true] at h ⊢
      exact ⟨h.1, ih k' h.2⟩

theorem isPrefixOf_append_same (s p q : Str) (h : p.isPrefixOf q = true) :
    (s ++ p).isPrefixOf (s ++ q) = true := by
  induction s with
  | nil => simpa using h
  | cons a t ih => simp [List.isPrefixOf, ih]

theorem key_inj (g : Str) (hg : '-' ∉ g) :
    ∀ (g2 t t2 k : Str), '-' ∉ g2 →
      (g ++ '-' :: t).isPrefixOf k = true →
      (g2 ++ '-' :: t2).isPrefixOf k = true → g = g2 := by
  induction g with
  | nil =>
    intro g2 t t2 k hg2 h1 h2
    cases k with
    | nil => simp [List.isPrefixOf] at h1
    | cons b k' =>
      simp only [List.nil_append, List.isPrefixOf, Bool.and_eq_true,
        beq_iff_eq] at h1
      cases g2 with
      | nil => rfl
      | cons c g2' =>
        simp only [List.cons_append, List.isPrefixOf, Bool.and_eq_true,
          beq_iff_eq] at h2
        exact absurd (List.mem_cons_self c g2')
          (by rw [show c = '-' from h2.1.trans h1.1.symm] at hg2 ⊢; exact hg2)
  | cons a g' ih =>
    intro g2 t t2 k hg2 h1 h2
    cases k with
    | nil => simp [List.isPrefixOf] at h1
    | cons b k' =>
      simp only [List.cons_append, List.isPrefixOf, Bool.and_eq_true,
        beq_iff_eq] at h1
      have hg' : '-' ∉ g' := fun hm => hg (List.mem_cons_of_mem a hm)
      cases g2 with
      | nil =>
        simp only [List.nil_append, List.isPrefixOf, Bool.and_eq_true,
          beq_iff_eq] at h2
        exact absurd (List.mem_cons_self a g')
          (by rw [show a = '-' from h1.1.trans h2.1.symm] at hg ⊢; exact hg)
      | cons c g2' =>
        simp only [List.cons_append, List.isPrefixOf, Bool.and_eq_true,
          beq_iff_eq] at h2
        have hg2' : '-' ∉ g2' := fun hm => hg2 (List.mem_cons_of_mem c hm)
        have hrest : g' = g2' := ih hg' g2' t t2 k' hg2' h1.2 h2.2
        rw [h1.1, ← h2.1, hrest]

theorem not_dash_of_all_digit (s : Str) (h : s.all Char.isDigit = true) :
    '-' ∉ s := by
  intro hm
  have hd := List.all_eq_true.mp h '-' hm
  exact absurd hd (by decide)

/-! ### Claim theorems and witnesses -/

/-- C6: a `resetinvites` invocation by a user without the administrator
permission flag replies with the permission-denied message and performs no
mutation: the returned state, ledger and inviter map included, is exactly
the input state. -/
theorem resetCommand_denied_without_admin (st : BotState) (guildId : Str)
    (present : Str → Bool) :
    handleResetCommand false guildId present st
      = (st, ResetReply.permissionDenied) := rfl

/-- C7: a `checkinvites` invocation whose user-id argument is not a string
of exactly 17 to 19 decimal digits replies with the invalid-id message and
returns before the ledger summation and the platform user fetch. -/
theorem checkInvites_rejects_malformed_id (counts : List (Str × Nat))
    (guildId targetUserId : Str) (h : validUserId targetUserId = false) :
    handleCheckInvitesCommand counts guildId targetUserId
      = (CheckReply.invalidId, false) := by
  simp [handleCheckInvitesCommand, h]

/-- Witness for C7 at the malformed id `"abc"`. -/
theorem checkInvites_rejects_malformed_id_w :
    validUserId ['a', 'b', 'c'] = false
    ∧ handleCheckInvitesCommand [] ['1'] ['a', 'b', 'c']
        = (CheckReply.invalidId, false) :=
  ⟨by decide,
    checkInvites_rejects_malformed_id [] ['1'] ['a', 'b', 'c'] (by decide)⟩

/-- C8: processing a member-leave event changes nothing: the state comes
back unchanged, and the departed member's inviter-map entry is exactly
what it was. -/
theorem memberRemove_no_mutation (st : BotState) (memberId : Str) :
    (guildMemberRemove st memberId).1 = st
    ∧ (guildMemberRemove st memberId).2 = mapGet st.userInviter memberId :=
  ⟨rfl, rfl⟩

/-- C9: with the token absent from the environment, startup exits with
code 1 immediately; no connected state (client, commands, stores) is ever
produced in that run. -/
theorem startup_exits_without_token :
    startup none = StartupResult.exited 1
    ∧ ∀ st : BotState, startup none ≠ StartupResult.connected st := by
  refine ⟨rfl, fun st h => ?_⟩
  simp [startup, tokenFalsy] at h

theorem mapGet_resetInviterMap (m : List (Str × Str)) (present : Str → Bool)
    (k : Str) (hk : present k = true) :
    mapGet (resetInviterMap m present) k = none := by
  induction m with
  | nil => rfl
  | cons hd tl ih =>
    obtain ⟨k', v⟩ := hd
    by_cases h : present k' = true
    · simpa [resetInviterMap, List.filter_cons, h] using ih
    · have hne : k' ≠ k := fun he => h (he ▸ hk)
      simp only [resetInviterMap, List.filter_cons, h, Bool.not_false,
        if_pos, Bool.not_eq_true] at ih ⊢
      simp only [Bool.not_eq_true] at h
      simp [h, mapGet, hne, ih]

/-- C10: the inviter map is a single global map keyed only by member id,
and reset deletes the entry of every member the resetting guild can fetch;
so a reset in guild `g` erases an entry that a credit in a different guild
`g'` established. -/
theorem reset_clears_inviter_entries_globally (st : BotState)
    (g g' inviterId memberId : Str) (present : Str → Bool)
    (hm : present memberId = true) :
    mapGet (handleResetCommand true g present
      (credit st g' inviterId memberId)).1.userInviter memberId = none := by
  have h : (handleResetCommand true g present
      (credit st g' inviterId memberId)).1.userInviter
      = resetInviterMap (credit st g' inviterId memberId).userInviter
          present := rfl
  rw [h]
  exact mapGet_resetInviterMap _ present memberId hm

/-- Witness for C10: a credit recorded for a join in guild `"2"` is erased
by a reset in guild `"1"` because the member is present there. -/
theorem reset_clears_inviter_entries_globally_w :
    (fun x : Str => x == ['m']) ['m'] = true
    ∧ mapGet (handleResetCommand true ['1'] (fun x : Str => x == ['m'])
        (credit ⟨[], [], []⟩ ['2'] ['u'] ['m'])).1.userInviter ['m'] = none :=
  ⟨by decide,
    reset_clears_inviter_entries_globally ⟨[], [], []⟩ ['1'] ['2'] ['u'] ['m']
      (fun x : Str => x == ['m']) (by decide)⟩

theorem totalFor_mapSet_succ (m : List (Str × Nat)) (g u key : Str)
    (h : (mkKey g u).isPrefixOf key = true) :
    totalFor (mapSet m key ((mapGet m key).getD 0 + 1)) g u
      = totalFor m g u + 1 := by
  induction m with
  | nil => simp [mapSet, mapGet, totalFor, h]
  | cons hd tl ih =>
    obtain ⟨k, c⟩ := hd
    by_cases hk : k = key
    · subst hk
      simp [mapSet, mapGet, totalFor, h]
      omega
    · simp only [mapSet, hk, if_false, mapGet, totalFor]
      rw [ih]
      omega

theorem totalFor_credit (st : BotState) (g u g' u' memberId : Str)
    (h : (mkKey g u).isPrefixOf (mkKey g' u') = true) :
    totalFor (credit st g' u' memberId).inviteCounts g u
      = totalFor st.inviteCounts g u + 1 := by
  simpa [credit] using totalFor_mapSet_succ st.inviteCounts g u (mkKey g' u') h

/-- C3: `n` sequential credits for the same (guild, inviter) pair raise
that pair's reported total by exactly `n` — so each call adds exactly 1 and
credit is not idempotent — and each credit records the joining member's
inviter in the inviter map. -/
theorem credit_adds_exactly_n (st : BotState) (g u memberId : Str) (n : Nat) :
    totalFor (creditN st g u memberId n).inviteCounts g u
      = totalFor st.inviteCounts g u + n
    ∧ mapGet (credit st g u memberId).userInviter memberId = some u := by
  constructor
  · induction n with
    | zero => rfl
    | succ k ih =>
      have h := totalFor_credit (creditN st g u memberId k) g u g u memberId
        (isPrefixOf_refl (mkKey g u))
      simp only [creditN, h, ih]
      omega
  · simpa [credit] using mapGet_mapSet_self st.userInviter memberId u

/-- C5: prefix-key collision — when `u1` is a proper string prefix of the
distinct id `u2`, a credit for (g, u2) also raises the total reported for
(g, u1) by that credit, because the summation matches ledger keys by
string prefix. -/
theorem totalFor_prefix_collision (st : BotState) (g u1 u2 memberId : Str)
    (hne : u1 ≠ u2) (hpre : u1.isPrefixOf u2 = true) :
    totalFor (credit st g u2 memberId).inviteCounts g u1
      = totalFor st.inviteCounts g u1 + 1 := by
  apply totalFor_credit
  have h := isPrefixOf_append_same (g ++ ['-']) u1 u2 hpre
  simpa [mkKey, List.append_assoc] using h

/-- Witness for C5: crediting user `"234"` in guild `"1"` bumps the total
reported for the distinct user `"23"`. -/
theorem totalFor_prefix_collision_w :
    (['2', '3'] : Str) ≠ ['2', '3', '4']
    ∧ (['2', '3'] : Str).isPrefixOf ['2', '3', '4'] = true
    ∧ totalFor (credit ⟨[], [], []⟩ ['1'] ['2', '3', '4'] ['m']).inviteCounts
        ['1'] ['2', '3']
      = totalFor ([] : List (Str × Nat)) ['1'] ['2', '3'] + 1 :=
  ⟨by decide, by decide,
    totalFor_prefix_collision ⟨[], [], []⟩ ['1'] ['2', '3'] ['2', '3', '4']
      ['m'] (by decide) (by decide)⟩

theorem totalFor_resetCounts_self (m : List (Str × Nat)) (g u : Str) :
    totalFor (resetCounts m g) g u = 0 := by
  induction m with
  | nil => rfl
  | cons hd tl ih =>
    obtain ⟨k, c⟩ := hd
    cases hdrop : (g ++ ['-']).isPrefixOf k with
    | true => simpa [resetCounts, List.filter_cons, hdrop] using ih
    | false =>
      have hk : ¬ (mkKey g u).isPrefixOf k = true := by
        intro hc
        have : (g ++ ['-']).isPrefixOf k = true := by
          apply isPrefixOf_of_append (g ++ ['-']) u k
          simpa [mkKey, List.append_assoc] using hc
        simp [this] at hdrop
      simp only [resetCounts, List.filter_cons, hdrop, Bool.not_false,
        if_pos, totalFor] at ih ⊢
      simp [hk, ih]

theorem totalFor_resetCounts_other (m : List (Str × Nat)) (g g2 u : Str)
    (hg : '-' ∉ g) (hg2 : '-' ∉ g2) (hne : g2 ≠ g) :
    totalFor (resetCounts m g) g2 u = totalFor m g2 u := by
  induction m with
  | nil => rfl
  | cons hd tl ih =>
    obtain ⟨k, c⟩ := hd
    cases hdrop : (g ++ ['-']).isPrefixOf k with
    | false =>
      simp only [resetCounts, List.filter_cons, hdrop, Bool.not_false,
        if_pos, totalFor] at ih ⊢
      rw [ih]
    | true =>
      have hk : ¬ (mkKey g2 u).isPrefixOf k = true := by
        intro hc
        have h1 : (g2 ++ '-' :: u).isPrefixOf k = true := by
          simpa [mkKey] using hc
        have h2 : (g ++ '-' :: ([] : Str)).isPrefixOf k = true := hdrop
        exact hne (key_inj g2 hg2 g u [] k hg h1 h2)
      simp only [resetCounts, List.filter_cons, hdrop, Bool.not_true,
        if_neg, totalFor] at ih ⊢
      simp [hk, ih]

/-- C4: an administrator reset of guild `g` zeroes every total reported for
`g`, and — guild ids being dash-free digit strings, as platform snowflake
ids are — leaves every other guild's totals unchanged. -/
theorem reset_zeroes_guild_and_frames_others (st : BotState) (g g2 u : Str)
    (present : Str → Bool)
    (hg : g.all Char.isDigit = true) (hg2 : g2.all Char.isDigit = true)
    (hne : g2 ≠ g) :
    totalFor (handleResetCommand true g present st).1.inviteCounts g u = 0
    ∧ totalFor (handleResetCommand true g present st).1.inviteCounts g2 u
        = totalFor st.inviteCounts g2 u := by
  have h : (handleResetCommand true g present st).1.inviteCounts
      = resetCounts st.inviteCounts g := rfl
  rw [h]
  exact ⟨totalFor_resetCounts_self st.inviteCounts g u,
    totalFor_resetCounts_other st.inviteCounts g g2 u
      (not_dash_of_all_digit g hg) (not_dash_of_all_digit g2 hg2) hne⟩

/-- Witness for C4: resetting guild `"1"` zeroes its user `"9"` while guild
`"2"`'s total for user `"9"` stays at 5. -/
theorem reset_zeroes_guild_and_frames_others_w :
    totalFor (handleResetCommand true ['1'] (fun _ => false)
        ⟨[(['1', '-', '9'], 3), (['2', '-', '9'], 5)], [], []⟩).1.inviteCounts
      ['1'] ['9'] = 0
    ∧ totalFor (handleResetCommand true ['1'] (fun _ => false)
        ⟨[(['1', '-', '9'], 3), (['2', '-', '9'], 5)], [], []⟩).1.inviteCounts
      ['2'] ['9']
      = totalFor [(['1', '-', '9'], 3), (['2', '-', '9'], 5)] ['2'] ['9'] :=
  reset_zeroes_guild_and_frames_others
    ⟨[(['1', '-', '9'], 3), (['2', '-', '9'], 5)], [], []⟩ ['1'] ['2'] ['9']
    (fun _ => false) (by decide) (by decide) (by decide)

theorem mapSet_eq_append {α : Type} (m : List (Str × α)) (k : Str) (v : α)
    (h : k ∉ m.map Prod.fst) :
    mapSet m k v = m ++ [(k, v)] := by
  induction m with
  | nil => rfl
  | cons hd tl ih =>
    obtain ⟨k', w⟩ := hd
    simp only [List.map_cons, List.mem_cons, not_or] at h
    have hne : ¬ k' = k := fun he => h.1 he.symm
    simp [mapSet, hne, ih h.2]

theorem snapshotOf_aux (l : List Invite) (acc : List (Str × Nat))
    (hn : (l.map Invite.code).Nodup)
    (hd : ∀ inv ∈ l, inv.code ∉ acc.map Prod.fst) :
    l.foldl (fun m inv => mapSet m inv.code inv.uses) acc
      = acc ++ l.map (fun i => (i.code, i.uses)) := by
  induction l generalizing acc with
  | nil => simp
  | cons i t ih =>
    simp only [List.map_cons, List.nodup_cons] at hn
    simp only [List.foldl_cons]
    rw [mapSet_eq_append acc i.code i.uses (hd i (List.mem_cons_self i t))]
    rw [ih (acc ++ [(i.code, i.uses)]) hn.2 ?_]
    · simp
    · intro inv hinv
      simp only [List.map_append, List.mem_append, List.map_cons,
        List.map_nil, List.mem_singleton, not_or]
      refine ⟨hd inv (List.mem_cons_of_mem i hinv), fun he => ?_⟩
      exact hn.1 (he ▸ List.mem_map_of_mem Invite.code hinv)

theorem snapshotOf_eq_map (l : List Invite)
    (hn : (l.map Invite.code).Nodup) :
    snapshotOf l = l.map (fun i => (i.code, i.uses)) := by
  simpa [snapshotOf] using snapshotOf_aux l [] hn (by simp)

theorem findUsedCode_map (cached : Snapshot) (l : List Invite) (inv : Invite)
    (hmem : inv ∈ l)
    (hinc : (mapGet cached inv.code).getD 0 < inv.uses)
    (huniq : ∀ j ∈ l, (mapGet cached j.code).getD 0 < j.uses → j = inv) :
    findUsedCode cached (l.map (fun i => (i.code, i.uses)))
      = some inv.code := by
  induction l with
  | nil => cases hmem
  | cons i t ih =>
    by_cases h : (mapGet cached i.code).getD 0 < i.uses
    · have he : i = inv := huniq i (List.mem_cons_self i t) h
      subst he
      simp [findUsedCode, h]
    · have ht : inv ∈ t := by
        rcases List.mem_cons.mp hmem with he | ht
        · exact absurd (he ▸ hinc) (he ▸ h)
        · exact ht
      simp only [List.map_cons, findUsedCode, h, if_false]
      exact ih ht (fun j hj hji => huniq j (List.mem_cons_of_mem i hj) hji)

theorem find?_code_eq (l : List Invite) (inv : Invite)
    (hn : (l.map Invite.code).Nodup) (hmem : inv ∈ l) :
    l.find? (fun j => j.code == inv.code) = some inv := by
  induction l with
  | nil => cases hmem
  | cons i t ih =>
    simp only [List.map_cons, List.nodup_cons] at hn
    rcases List.mem_cons.mp hmem with he | ht
    · subst he
      simp [List.find?]
    · have hne : ¬ i.code = inv.code := by
        intro hc
        exact hn.1 (hc ▸ List.mem_map_of_mem Invite.code ht)
      have hb : (i.code == inv.code) = false := beq_eq_false_iff_ne.mpr hne
      simp only [List.find?, hb]
      exact ih hn.2 ht

/-- C1: when exactly one invite's use count exceeds its cached count (a
missing cache entry counting as 0) and that invite's creator is
resolvable, the member-join attribution scan selects that code, returns it
paired with the inviter's id, credits exactly that inviter's composite
ledger key, and records the joining member's inviter. -/
theorem attribution_unique_increase (st : BotState) (guildId memberId : Str)
    (newInvites : List Invite) (inv : Invite) (creator : Str)
    (hn : (newInvites.map Invite.code).Nodup)
    (hmem : inv ∈ newInvites)
    (hinc : (mapGet (cachedOf st guildId) inv.code).getD 0 < inv.uses)
    (huniq : ∀ j ∈ newInvites,
      (mapGet (cachedOf st guildId) j.code).getD 0 < j.uses → j = inv)
    (hcreator : inv.inviter = some creator) :
    attributeInvite (cachedOf st guildId) newInvites
      = some (inv.code, creator)
    ∧ (guildMemberAdd st guildId memberId newInvites).inviteCounts
        = mapSet st.inviteCounts (mkKey guildId creator)
            ((mapGet st.inviteCounts (mkKey guildId creator)).getD 0 + 1)
    ∧ (guildMemberAdd st guildId memberId newInvites).userInviter
        = mapSet st.userInviter memberId creator := by
  have hattr : attributeInvite (cachedOf st guildId) newInvites
      = some (inv.code, creator) := by
    have h1 := snapshotOf_eq_map newInvites hn
    have h2 := findUsedCode_map (cachedOf st guildId) newInvites inv hmem
      hinc huniq
    have h3 := find?_code_eq newInvites inv hn hmem
    simp only [attributeInvite, h1, h2, h3, hcreator]
  refine ⟨hattr, ?_, ?_⟩ <;> simp [guildMemberAdd, hattr, credit]

/-- Witness for C1: a single invite `"A"` created by `"u"` goes from a
missing cache entry to one use; the scan selects it and credits `"u"`. -/
theorem attribution_unique_increase_w :
    attributeInvite (cachedOf ⟨[], [], []⟩ ['1'])
        [⟨['A'], 1, some ['u']⟩] = some (['A'], ['u'])
    ∧ (guildMemberAdd ⟨[], [], []⟩ ['1'] ['m']
        [⟨['A'], 1, some ['u']⟩]).userInviter
      = mapSet [] ['m'] ['u'] :=
  have h := attribution_unique_increase ⟨[], [], []⟩ ['1'] ['m']
    [⟨['A'], 1, some ['u']⟩] ⟨['A'], 1, some ['u']⟩ ['u']
    (by decide) (by decide) (by decide) (by decide) rfl
  ⟨h.1, h.2.2⟩

theorem findUsedCode_none (cached snap : Snapshot)
    (h : ∀ e ∈ snap, ¬ (mapGet cached e.1).getD 0 < e.2) :
    findUsedCode cached snap = none := by
  induction snap with
  | nil => rfl
  | cons e t ih =>
    obtain ⟨code, uses⟩ := e
    have h1 := h (code, uses) (List.mem_cons_self _ _)
    simp only [findUsedCode, h1, if_false]
    exact ih (fun e he => h e (List.mem_cons_of_mem _ he))

/-- C2: the member-join handler returns no attribution, and leaves the
credit ledger and the inviter map exactly as they were, whenever no entry
of the fresh snapshot has a use count above its cached count, or the first
increased code resolves to an invite with no resolvable inviter. -/
theorem attribution_none_no_credit (st : BotState) (guildId memberId : Str)
    (newInvites : List Invite)
    (h : (∀ e ∈ snapshotOf newInvites,
            ¬ (mapGet (cachedOf st guildId) e.1).getD 0 < e.2)
       ∨ (∃ code inv,
            findUsedCode (cachedOf st guildId) (snapshotOf newInvites)
              = some code
            ∧ newInvites.find? (fun j => j.code == code) = some inv
            ∧ inv.inviter = none)) :
    attributeInvite (cachedOf st guildId) newInvites = none
    ∧ (guildMemberAdd st guildId memberId newInvites).inviteCounts
        = st.inviteCounts
    ∧ (guildMemberAdd st guildId memberId newInvites).userInviter
        = st.userInviter := by
  have hattr : attributeInvite (cachedOf st guildId) newInvites = none := by
    rcases h with hA | ⟨code, inv, h1, h2, h3⟩
    · have h0 := findUsedCode_none _ _ hA
      simp only [attributeInvite, h0]
    · simp only [attributeInvite, h1, h2, h3]
  refine ⟨hattr, ?_, ?_⟩ <;> simp [guildMemberAdd, hattr]

/-- Witness for C2: with an empty fresh invite list no count increased, so
a join attributes nothing and mutates neither store. -/
theorem attribution_none_no_credit_w :
    attributeInvite (cachedOf ⟨[], [], []⟩ ['1']) [] = none
    ∧ (guildMemberAdd ⟨[], [], []⟩ ['1'] ['m'] []).inviteCounts = []
    ∧ (guildMemberAdd ⟨[], [], []⟩ ['1'] ['m'] []).userInviter = [] :=
  attribution_none_no_credit ⟨[], [], []⟩ ['1'] ['m'] []
    (Or.inl (by decide))

end InviteBot
